import Mathlib

/-!
Shallow embedding of the title-evaluation engine of `src/app.py`
(asakatsu-light): the wake-up event log, the award ledger, the streak
computation and the five title rules, together with proofs of the spec
claims about them.

Conventions of the embedding:
* Calendar days are integers (`Int`): the source stores days as
  zero-padded `"%Y-%m-%d"` strings, on which SQL `DISTINCT` / `ORDER BY`
  and the Python `date` subtraction agree with integer day ordinals.
* Times of day are `Time` records (hour, minute, second): the source
  stores times as zero-padded `"HH:MM:SS"` strings, on which SQL `MIN` /
  `ORDER BY` agree with the lexicographic field order captured by
  `Time.key`.
* The database tables become lists: `wakeups` a `List Wakeup`,
  `user_titles` a `List Award`, `titles` a `List TitleDef`.  SQL queries
  become list pipelines; the `ON CONFLICT DO NOTHING` insert becomes a
  conditional append.
* Each `evaluate_and_grant_*` function returns its Python return value
  paired with the ledger after its grants.
-/

/-- Wall-clock time of day, second precision (the payload of the `ts`
column, a zero-padded `"HH:MM:SS"` string in the source). -/
structure Time where
  hour : Nat
  minute : Nat
  second : Nat
deriving DecidableEq, Repr

/-- Numeric rendering of the `"HHMMSS"` digit string: comparing keys is
the SQL string comparison on zero-padded `"HH:MM:SS"` values. -/
def Time.key (t : Time) : Nat :=
  t.hour * 10000 + t.minute * 100 + t.second

/-- One row of the `wakeups` table: a wake-up event. -/
structure Wakeup where
  name : String
  ts : Time
  day : Int
deriving DecidableEq, Repr

/-- One row of the `user_titles` table: an award in the ledger. -/
structure Award where
  user_name : String
  title_code : String
  acquired_day : Int
deriving DecidableEq, Repr

/-- One row of the `titles` table: a title definition (`id` is the
SERIAL primary key used for ordering). -/
structure TitleDef where
  id : Nat
  code : String
  name : String
  description : String
  is_hidden : Bool
deriving DecidableEq, Repr

/-- Insert into a descending-sorted list of days. -/
def insertDesc (a : Int) : List Int → List Int
  | [] => [a]
  | b :: rest => if a ≥ b then a :: b :: rest else b :: insertDesc a rest

/-- Sort days descending (the SQL `ORDER BY day DESC`). -/
def sortDesc : List Int → List Int
  | [] => []
  | a :: rest => insertDesc a (sortDesc rest)

/-- The user's distinct wake-up days sorted newest first (`SELECT
DISTINCT day ... ORDER BY day DESC`). -/
def userDaysDesc (events : List Wakeup) (user : String) : List Int :=
  sortDesc (((events.filter (fun e => e.name == user)).map (fun e => e.day)).dedup)

/-- Embeds `get_user_login_days`: `SELECT DISTINCT day FROM wakeups
WHERE name = user ORDER BY day DESC LIMIT limit`. -/
def get_user_login_days (events : List Wakeup) (user : String) (limit : Nat) : List Int :=
  (userDaysDesc events user).take limit

/-- Loop body of `calc_streak_days`: counts how many further days each
step exactly one day earlier than the previous, stopping at a gap. -/
def streakGo (prev : Int) : List Int → Nat
  | [] => 0
  | cur :: rest => if prev - cur = 1 then 1 + streakGo cur rest else 0

/-- Embeds `calc_streak_days` of `src/app.py`: 0 on the empty list,
otherwise 1 for the most recent day plus the consecutive run after it. -/
def calc_streak_days : List Int → Nat
  | [] => 0
  | d :: rest => 1 + streakGo d rest

/-- Modelled from the spec: a list of days is a consecutive descending
chain (each successive day exactly one calendar day earlier). -/
def chainB : List Int → Bool
  | [] => true
  | [_] => true
  | a :: b :: rest => (a - b == 1) && chainB (b :: rest)

/-- Modelled from the spec: the length of the maximal prefix of the list
that is a consecutive descending chain. -/
def maxChainPrefixLen (l : List Int) : Nat :=
  Nat.findGreatest (fun n => chainB (l.take n) = true) l.length

/-- Ownership test: does the ledger already hold a row for this
(user, title) pair?  This is the key lookup behind the
`ON CONFLICT (user_name, title_code)` clause. -/
def owns (ledger : List Award) (user code : String) : Bool :=
  ledger.any (fun a => a.user_name == user && a.title_code == code)

/-- Embeds `grant_title_if_not_owned`: `INSERT INTO user_titles ... ON
CONFLICT (user_name, title_code) DO NOTHING` against the UNIQUE
constraint created by `init_db`. -/
def grant_title_if_not_owned (ledger : List Award) (user code : String) (day : Int) :
    List Award :=
  if owns ledger user code then ledger else ledger ++ [⟨user, code, day⟩]

/-- Number of ledger rows for a given (user, title) pair. -/
def countPairs (ledger : List Award) (user code : String) : Nat :=
  (ledger.filter (fun a => a.user_name == user && a.title_code == code)).length

/-- Ledger states reachable from the empty `user_titles` table by the
grant operation (the only writer of that table). -/
inductive ReachableLedger : List Award → Prop where
  | nil : ReachableLedger []
  | grant (L : List Award) (u c : String) (d : Int) :
      ReachableLedger L → ReachableLedger (grant_title_if_not_owned L u c d)

/-- Embeds `evaluate_and_grant_streak_titles`: computes the streak over
the most recent 60 distinct login days and grants each tier whose
threshold is reached; returns the streak with the updated ledger. -/
def evaluate_and_grant_streak_titles (events : List Wakeup) (ledger : List Award)
    (user : String) (today : Int) : Nat × List Award :=
  let days_desc := get_user_login_days events user 60
  let streak := calc_streak_days days_desc
  let l1 := if 3 ≤ streak then grant_title_if_not_owned ledger user "streak_3" today else ledger
  let l2 := if 7 ≤ streak then grant_title_if_not_owned l1 user "streak_7" today else l1
  let l3 := if 14 ≤ streak then grant_title_if_not_owned l2 user "streak_14" today else l2
  (streak, l3)

/-- Earliest of a list of times by `Time.key` (SQL `MIN(ts)` over the
zero-padded strings).  The default for the empty list is never used:
the function is only applied to days that have at least one event. -/
def minTimeD : List Time → Time
  | [] => ⟨99, 99, 99⟩
  | t :: rest => rest.foldl (fun a b => if b.key < a.key then b else a) t

/-- Earliest wake-up time of `user` on day `d` (`MIN(ts) ... GROUP BY
day` restricted to one group). -/
def earliestTsOn (events : List Wakeup) (user : String) (d : Int) : Time :=
  minTimeD ((events.filter (fun e => e.name == user && e.day == d)).map (fun e => e.ts))

/-- Embeds `get_user_wakeups`: `SELECT day, MIN(ts) FROM wakeups WHERE
name = user GROUP BY day ORDER BY day DESC LIMIT limit`. -/
def get_user_wakeups (events : List Wakeup) (user : String) (limit : Nat) :
    List (Int × Time) :=
  ((userDaysDesc events user).take limit).map (fun d => (d, earliestTsOn events user d))

/-- Loop of `is_consecutive_days`: the next `k` entries each step
exactly one calendar day down from the previous one. -/
def consecGo (prev : Int) : List Int → Nat → Bool
  | _, 0 => true
  | [], _ + 1 => true
  | cur :: rest, k + 1 => if prev - cur = 1 then consecGo cur rest k else false

/-- Embeds `is_consecutive_days`: the first `need` entries of the
descending day list are calendar-consecutive.  (Both call sites use
`need = 3`; the `[]` arm below is unreachable under the length guard,
matching the fact that the Python loop never reads past the list.) -/
def is_consecutive_days (days_desc : List Int) (need : Nat) : Bool :=
  if days_desc.length < need then false
  else
    match days_desc with
    | [] => false
    | d :: rest => consecGo d rest (need - 1)

/-- Embeds the `minutes` helper of `evaluate_and_grant_regular_3`:
minute of day, seconds discarded.  (`_parse_time` of the source merely
re-parses the stored zero-padded `"HH:MM:SS"` string, so it is the
identity of this embedding.) -/
def wakeMinutes (t : Time) : Int :=
  t.hour * 60 + t.minute

/-- Embeds `evaluate_and_grant_regular_3`: most recent 3 wake-up days
consecutive and successive earliest wake times within 30 minutes. -/
def evaluate_and_grant_regular_3 (events : List Wakeup) (ledger : List Award)
    (user : String) (today : Int) : Bool × List Award :=
  let logs := get_user_wakeups events user 10
  if logs.length < 3 then (false, ledger)
  else
    let days_desc := logs.map (fun x => x.1)
    if !(is_consecutive_days days_desc 3) then (false, ledger)
    else
      match logs with
      | l0 :: l1 :: l2 :: _ =>
        let t0 := wakeMinutes l0.2
        let t1 := wakeMinutes l1.2
        let t2 := wakeMinutes l2.2
        let ok01 := (t0 - t1).natAbs ≤ 30
        let ok12 := (t1 - t2).natAbs ≤ 30
        if ok01 ∧ ok12 then (true, grant_title_if_not_owned ledger user "regular_3" today)
        else (false, ledger)
      | _ => (false, ledger)

/-- Embeds the `is_noon` predicate: woke at or after 12:00. -/
def is_noon (t : Time) : Bool :=
  12 ≤ t.hour

/-- Embeds `evaluate_and_grant_noon_3`: most recent 3 wake-up days
consecutive, all three earliest wake times at or after noon. -/
def evaluate_and_grant_noon_3 (events : List Wakeup) (ledger : List Award)
    (user : String) (today : Int) : Bool × List Award :=
  let logs := get_user_wakeups events user 10
  if logs.length < 3 then (false, ledger)
  else
    let days_desc := logs.map (fun x => x.1)
    if !(is_consecutive_days days_desc 3) then (false, ledger)
    else if (logs.take 3).all (fun x => is_noon x.2) then
      (true, grant_title_if_not_owned ledger user "noon_3" today)
    else (false, ledger)

/-- Embeds the `is_too_early` predicate: at or before 04:00:00. -/
def is_too_early (t : Time) : Bool :=
  t.hour < 4 || (t.hour == 4 && t.minute == 0 && t.second == 0)

/-- Embeds `evaluate_and_grant_no_sleep_3`: most recent 3 wake-up days
consecutive, all three earliest wake times at or before 04:00:00. -/
def evaluate_and_grant_no_sleep_3 (events : List Wakeup) (ledger : List Award)
    (user : String) (today : Int) : Bool × List Award :=
  let logs := get_user_wakeups events user 10
  if logs.length < 3 then (false, ledger)
  else
    let days_desc := logs.map (fun x => x.1)
    if !(is_consecutive_days days_desc 3) then (false, ledger)
    else if (logs.take 3).all (fun x => is_too_early x.2) then
      (true, grant_title_if_not_owned ledger user "no_sleep_3" today)
    else (false, ledger)

/-- Strict (time, name) lexicographic order used by `ORDER BY ts ASC,
name ASC` over the per-user minimum times. -/
def pairLtB (a b : Time × String) : Bool :=
  a.1.key < b.1.key || (a.1.key == b.1.key && a.2 < b.2)

/-- The distinct users with at least one event on the day (the groups
of `GROUP BY name`). -/
def namesOn (events : List Wakeup) (d : Int) : List String :=
  ((events.filter (fun e => e.day == d)).map (fun e => e.name)).dedup

/-- Earliest event time of a user on the day (`MIN(ts)` of one group). -/
def bestTsOn (events : List Wakeup) (d : Int) (n : String) : Time :=
  minTimeD (((events.filter (fun e => e.day == d)).filter (fun e => e.name == n)).map
    (fun e => e.ts))

/-- Embeds `daily_fastest_riser` (`SELECT name, MIN(ts) FROM wakeups
WHERE day = d GROUP BY name ORDER BY ts ASC, name ASC LIMIT 1`): each
user's earliest time on the day, then the least (time, name) pair. -/
def daily_fastest_riser (events : List Wakeup) (d : Int) : Option String :=
  match (namesOn events d).map (fun n => (bestTsOn events d n, n)) with
  | [] => none
  | p :: rest => some ((rest.foldl (fun a b => if pairLtB b a then b else a) p).2)

/-- Python truthiness of one entry of `winners`: `all(winners)` treats
both `None` and the empty-string name as falsy. -/
def truthyName : Option String → Bool
  | none => false
  | some s => !(s == "")

/-- Embeds `evaluate_and_grant_earlyking_3`: grants when today and the
two preceding days each have a fastest riser, every winner entry passes
Python truthiness, and all three are the same person.  Returns the
winner (or `none`) with the updated ledger. -/
def evaluate_and_grant_earlyking_3 (events : List Wakeup) (ledger : List Award)
    (today : Int) : Option String × List Award :=
  let w0 := daily_fastest_riser events today
  let w1 := daily_fastest_riser events (today - 1)
  let w2 := daily_fastest_riser events (today - 2)
  if truthyName w0 && truthyName w1 && truthyName w2 && w0 == w1 && w1 == w2 then
    match w0 with
    | some u => (some u, grant_title_if_not_owned ledger u "earlyking_3" today)
    | none => (none, ledger)
  else (none, ledger)

/-- The structured result of `evaluate_and_grant_all_titles`. -/
structure AwardResult where
  streak : Nat
  regular_ok : Bool
  noon_ok : Bool
  nosleep_ok : Bool
  earlyking_user : Option String
deriving DecidableEq, Repr

/-- Embeds `evaluate_and_grant_all_titles`: runs the five rules in
order, threading the award ledger through their grants. -/
def evaluate_and_grant_all_titles (events : List Wakeup) (ledger : List Award)
    (user : String) (today : Int) : AwardResult × List Award :=
  let r1 := evaluate_and_grant_streak_titles events ledger user today
  let r2 := evaluate_and_grant_regular_3 events r1.2 user today
  let r3 := evaluate_and_grant_noon_3 events r2.2 user today
  let r4 := evaluate_and_grant_no_sleep_3 events r3.2 user today
  let r5 := evaluate_and_grant_earlyking_3 events r4.2 today
  (⟨r1.1, r2.1, r3.1, r4.1, r5.1⟩, r5.2)

/-- One grouped entry of the titles page. -/
structure TitleEntry where
  code : String
  name : String
  description : String
  is_hidden : Bool
  holders : List String
deriving DecidableEq, Repr

/-- The grouped entry for one title: its definition fields plus the
holders, where a holder is kept only if its name passes Python
truthiness (`if user_name:` — which also absorbs the NULL of an
unmatched LEFT JOIN row). -/
def titleEntryFor (awards : List Award) (t : TitleDef) : TitleEntry :=
  ⟨t.code, t.name, t.description, t.is_hidden,
    ((awards.filter (fun a => a.title_code == t.code)).map
      (fun a => a.user_name)).filter (fun n => !(n == ""))⟩

/-- Embeds `fetch_titles_with_holders`: LEFT JOIN of `titles` with
`user_titles` grouped per title (codes are UNIQUE, so grouping rows by
code is grouping by title), then dropping hidden titles with no
holders.  The SQL sorts holders by name; the claims are insensitive to
that order, so the holder order is left as the award order. -/
def fetch_titles_with_holders (titles : List TitleDef) (awards : List Award) :
    List TitleEntry :=
  (titles.map (fun t => titleEntryFor awards t)).filter
    (fun t => !(t.is_hidden && t.holders.length == 0))

/-- Modelled from the spec: the user's three most recent distinct
wake-up days, newest first, each with the earliest wake time of that
day; `none` when fewer than three distinct days exist. -/
def threeMostRecent (events : List Wakeup) (user : String) :
    Option ((Int × Time) × (Int × Time) × (Int × Time)) :=
  match userDaysDesc events user with
  | d0 :: d1 :: d2 :: _ =>
    some ((d0, earliestTsOn events user d0), (d1, earliestTsOn events user d1),
      (d2, earliestTsOn events user d2))
  | _ => none

/-- Modelled from the spec: the regularity condition — three most
recent distinct days calendar-consecutive, and the earliest wake times
(as minute of day, seconds discarded) of successive days within 30
minutes of each other. -/
def specRegular (events : List Wakeup) (user : String) : Bool :=
  match threeMostRecent events user with
  | some ((d0, t0), (d1, t1), (d2, t2)) =>
    d0 - d1 == 1 && d1 - d2 == 1 &&
    (wakeMinutes t0 - wakeMinutes t1).natAbs ≤ 30 &&
    (wakeMinutes t1 - wakeMinutes t2).natAbs ≤ 30
  | none => false

/-- Modelled from the spec: a wake time at or before 04:00:00 — hour
below 4, or exactly 04:00:00. -/
def specAtOrBefore4 (t : Time) : Bool :=
  t.hour < 4 || (t.hour == 4 && t.minute == 0 && t.second == 0)

/-- Modelled from the spec: the insomniac condition — three most recent
distinct days calendar-consecutive and every earliest wake time at or
before 04:00:00. -/
def specNoSleep (events : List Wakeup) (user : String) : Bool :=
  match threeMostRecent events user with
  | some ((d0, t0), (d1, t1), (d2, t2)) =>
    d0 - d1 == 1 && d1 - d2 == 1 &&
    specAtOrBefore4 t0 && specAtOrBefore4 t1 && specAtOrBefore4 t2
  | none => false

/-- Modelled from the spec: the night-owl condition — three most
recent distinct days calendar-consecutive and every earliest wake time
with hour at least 12. -/
def specNoon (events : List Wakeup) (user : String) : Bool :=
  match threeMostRecent events user with
  | some ((d0, t0), (d1, t1), (d2, t2)) =>
    d0 - d1 == 1 && d1 - d2 == 1 &&
    decide (12 ≤ t0.hour) && decide (12 ≤ t1.hour) && decide (12 ≤ t2.hour)
  | none => false

/-- The winner the early-riser rule would grant: the common fastest
riser of today and the two preceding days, when all three winner
entries pass Python truthiness and agree. -/
def earlykingWinner (events : List Wakeup) (today : Int) : Option String :=
  let w0 := daily_fastest_riser events today
  let w1 := daily_fastest_riser events (today - 1)
  let w2 := daily_fastest_riser events (today - 2)
  if truthyName w0 && truthyName w1 && truthyName w2 && w0 == w1 && w1 == w2 then w0
  else none


/-- Number of distinct wake-up days a user has. -/
def distinctDayCount (events : List Wakeup) (user : String) : Nat :=
  (userDaysDesc events user).length

/-- A chain stays a chain when truncated. -/
theorem chainB_take {l : List Int} (h : chainB l = true) (n : Nat) :
    chainB (l.take n) = true := by
  induction l generalizing n with
  | nil => simpa using h
  | cons a rest ih =>
    cases n with
    | zero => rfl
    | succ k =>
      rw [List.take_succ_cons]
      cases rest with
      | nil => cases k <;> simp [chainB]
      | cons b rest2 =>
        simp only [chainB, Bool.and_eq_true] at h
        cases k with
        | zero => simp [chainB]
        | succ m =>
          have h2 : chainB ((b :: rest2).take (m + 1)) = true := ih h.2 (m + 1)
          rw [List.take_succ_cons] at h2 ⊢
          simp only [chainB, Bool.and_eq_true]
          exact ⟨h.1, h2⟩

/-- The prefix of length `calc_streak_days` is a consecutive chain. -/
theorem chainB_take_streakGo (prev : Int) (rest : List Int) :
    chainB ((prev :: rest).take (1 + streakGo prev rest)) = true := by
  induction rest generalizing prev with
  | nil => rfl
  | cons c rs ih =>
    by_cases h : prev - c = 1
    · have hgo : streakGo prev (c :: rs) = 1 + streakGo c rs := by
        simp [streakGo, h]
      rw [hgo]
      have h2 : (1 : Nat) + (1 + streakGo c rs) = (1 + streakGo c rs) + 1 := by omega
      rw [h2, List.take_succ_cons]
      have hc := ih c
      have h3 : (1 : Nat) + streakGo c rs = streakGo c rs + 1 := by omega
      rw [h3, List.take_succ_cons] at hc ⊢
      simp only [chainB, Bool.and_eq_true]
      exact ⟨by simpa using h, hc⟩
    · have hgo : streakGo prev (c :: rs) = 0 := by simp [streakGo, h]
      rw [hgo]
      rfl

/-- When the streak stops before the end of the list, the next-longer
prefix is not a chain. -/
theorem chainB_take_streakGo_succ (prev : Int) (rest : List Int)
    (h : streakGo prev rest < rest.length) :
    chainB ((prev :: rest).take (1 + streakGo prev rest + 1)) = false := by
  induction rest generalizing prev with
  | nil => simp [streakGo] at h
  | cons c rs ih =>
    by_cases hpc : prev - c = 1
    · have hgo : streakGo prev (c :: rs) = 1 + streakGo c rs := by
        simp [streakGo, hpc]
      rw [hgo] at h ⊢
      have hlt : streakGo c rs < rs.length := by
        simp only [List.length_cons] at h
        omega
      have hc := ih c hlt
      have h2 : (1 : Nat) + (1 + streakGo c rs) + 1 = (1 + streakGo c rs + 1) + 1 := by omega
      rw [h2, List.take_succ_cons]
      have h3 : (1 : Nat) + streakGo c rs + 1 = (streakGo c rs + 1) + 1 := by omega
      rw [h3, List.take_succ_cons] at hc ⊢
      simp only [chainB]
      rw [hc]
      simp
    · have hgo : streakGo prev (c :: rs) = 0 := by simp [streakGo, hpc]
      rw [hgo]
      have h4 : (prev :: c :: rs).take (1 + 0 + 1) = [prev, c] := rfl
      rw [h4]
      simp only [chainB]
      simp [hpc]

/-- The streak never exceeds the number of days given. -/
theorem streakGo_le_length (prev : Int) (rest : List Int) :
    streakGo prev rest ≤ rest.length := by
  induction rest generalizing prev with
  | nil => simp [streakGo]
  | cons c rs ih =>
    by_cases h : prev - c = 1
    · simp only [streakGo, if_pos h, List.length_cons]
      have := ih c
      omega
    · simp [streakGo, h]

theorem calc_streak_le_length (l : List Int) : calc_streak_days l ≤ l.length := by
  cases l with
  | nil => simp [calc_streak_days]
  | cons d rest =>
    simp only [calc_streak_days, List.length_cons]
    have := streakGo_le_length d rest
    omega

/-- The greedy streak count equals the maximal consecutive-chain prefix
length, on every list. -/
theorem calc_streak_eq_maxChain (l : List Int) :
    calc_streak_days l = maxChainPrefixLen l := by
  symm
  rw [maxChainPrefixLen, Nat.findGreatest_eq_iff]
  refine ⟨calc_streak_le_length l, ?_, ?_⟩
  · intro _
    cases l with
    | nil => rfl
    | cons d rest => exact chainB_take_streakGo d rest
  · intro n hlt hle hchain
    cases l with
    | nil =>
      simp only [List.length_nil] at hle
      simp only [calc_streak_days] at hlt
      omega
    | cons d rest =>
      have hblock : chainB ((d :: rest).take (calc_streak_days (d :: rest) + 1)) = false := by
        have hstreak : streakGo d rest < rest.length := by
          have h1 := calc_streak_le_length (d :: rest)
          simp only [calc_streak_days, List.length_cons] at hle hlt ⊢
          omega
        simpa [calc_streak_days] using chainB_take_streakGo_succ d rest hstreak
      have : chainB (((d :: rest).take n).take (calc_streak_days (d :: rest) + 1)) = true :=
        chainB_take hchain _
      rw [List.take_take] at this
      have hmin : (calc_streak_days (d :: rest) + 1) ⊓ n = calc_streak_days (d :: rest) + 1 := by
        omega
      rw [hmin] at this
      rw [hblock] at this
      simp at this


/-- Ownership after a grant: the old rows plus the granted key. -/
theorem owns_grant (L : List Award) (u c : String) (d : Int) (u' c' : String) :
    owns (grant_title_if_not_owned L u c d) u' c' =
      (owns L u' c' || (u == u' && c == c')) := by
  unfold grant_title_if_not_owned
  by_cases h : owns L u c = true
  · rw [if_pos h]
    by_cases h2 : u = u' ∧ c = c'
    · obtain ⟨rfl, rfl⟩ := h2
      simp [h]
    · have h3 : (u == u' && c == c') = false := by
        rcases not_and_or.mp h2 with h4 | h4 <;> simp [h4]
      rw [h3, Bool.or_false]
  · rw [if_neg h]
    unfold owns
    rw [List.any_append]
    simp

/-- A pair is absent exactly when it has no rows. -/
theorem owns_eq_false_iff (L : List Award) (u c : String) :
    owns L u c = false ↔ countPairs L u c = 0 := by
  unfold owns countPairs
  rw [List.length_eq_zero, List.filter_eq_nil_iff]
  rw [← Bool.not_eq_true, List.any_eq_true]
  constructor
  · intro h a ha
    intro hp
    exact h ⟨a, ha, hp⟩
  · rintro h ⟨a, ha, hp⟩
    exact h a ha hp

/-- Row count for a pair after appending one award. -/
theorem countPairs_append (L : List Award) (a : Award) (u c : String) :
    countPairs (L ++ [a]) u c =
      countPairs L u c + (if a.user_name == u && a.title_code == c then 1 else 0) := by
  unfold countPairs
  rw [List.filter_append, List.length_append]
  congr 1
  by_cases h : (a.user_name == u && a.title_code == c) = true
  · rw [if_pos h]
    simp [List.filter, h]
  · rw [if_neg h]
    simp [List.filter, h]

/-- The grant preserves the at-most-one-row invariant for every pair. -/
theorem countPairs_grant_le (L : List Award) (u c : String) (d : Int) (u' c' : String)
    (h : countPairs L u' c' ≤ 1) :
    countPairs (grant_title_if_not_owned L u c d) u' c' ≤ 1 := by
  unfold grant_title_if_not_owned
  by_cases ho : owns L u c = true
  · rw [if_pos ho]
    exact h
  · rw [if_neg ho]
    rw [countPairs_append]
    by_cases hm : u = u' ∧ c = c'
    · obtain ⟨rfl, rfl⟩ := hm
      have h0 : countPairs L u c = 0 := (owns_eq_false_iff L u c).mp (by simpa using ho)
      simp [h0]
    · have h3 : ((⟨u, c, d⟩ : Award).user_name == u' && (⟨u, c, d⟩ : Award).title_code == c') = false := by
        rcases not_and_or.mp hm with h4 | h4 <;> simp [h4]
      rw [h3]
      simpa using h
  
/-- After granting a pair, the pair is owned. -/
theorem owns_after_grant (L : List Award) (u c : String) (d : Int) :
    owns (grant_title_if_not_owned L u c d) u c = true := by
  rw [owns_grant]
  simp

/-- Every ledger reachable by grants has at most one row per pair. -/
theorem reachable_countPairs_le {L : List Award} (h : ReachableLedger L)
    (u c : String) : countPairs L u c ≤ 1 := by
  induction h with
  | nil => simp [countPairs]
  | grant L' u' c' d' _ ih => exact countPairs_grant_le L' u' c' d' u c ih

/-- C1: for every non-empty strictly descending list of days,
`calc_streak_days` returns the length of the maximal prefix in which
each successive day is exactly one calendar day earlier (1 for the most
recent day, stopping at the first gap); the empty list gives 0;
`[d, d-1, d-2]` gives 3 and `[d, d-2]` gives 1. -/
theorem C1_calc_streak_days :
    (∀ l : List Int, l ≠ [] → List.Pairwise (fun a b => b < a) l →
      calc_streak_days l = maxChainPrefixLen l) ∧
    calc_streak_days [] = 0 ∧
    (∀ d : Int, calc_streak_days [d, d - 1, d - 2] = 3 ∧ calc_streak_days [d, d - 2] = 1) := by
  refine ⟨fun l _ _ => calc_streak_eq_maxChain l, rfl, fun d => ⟨?_, ?_⟩⟩
  · have h1 : d - (d - 1) = 1 := by ring
    have h2 : d - 1 - (d - 2) = 1 := by ring
    simp [calc_streak_days, streakGo, h1, h2]
  · have h1 : ¬(d - (d - 2) = 1) := by omega
    simp [calc_streak_days, streakGo, h1]

/-- Witness for C1 at a concrete descending list with a gap. -/
theorem C1_witness : calc_streak_days [(5 : Int), 4, 2] = maxChainPrefixLen [(5 : Int), 4, 2] :=
  C1_calc_streak_days.1 [(5 : Int), 4, 2] (by decide) (by decide)

/-- C3: the grant inserts only when the (user, title) pair is absent and
is a silent no-op otherwise; every ledger reachable by grants has at
most one row per pair, and granting the same pair twice is the same as
granting it once. -/
theorem C3_grant_unique :
    (∀ (L : List Award) (u c : String) (d : Int),
      owns L u c = true → grant_title_if_not_owned L u c d = L) ∧
    (∀ (L : List Award) (u c : String) (d : Int),
      owns L u c = false → grant_title_if_not_owned L u c d = L ++ [⟨u, c, d⟩]) ∧
    (∀ L : List Award, ReachableLedger L → ∀ u c : String, countPairs L u c ≤ 1) ∧
    (∀ (L : List Award) (u c : String) (d e : Int),
      grant_title_if_not_owned (grant_title_if_not_owned L u c d) u c e =
        grant_title_if_not_owned L u c d) := by
  refine ⟨?_, ?_, ?_, ?_⟩
  · intro L u c d h
    unfold grant_title_if_not_owned
    rw [if_pos h]
  · intro L u c d h
    unfold grant_title_if_not_owned
    rw [if_neg (by simp [h])]
  · intro L h u c
    exact reachable_countPairs_le h u c
  · intro L u c d e
    conv_lhs => rw [grant_title_if_not_owned]
    rw [if_pos (owns_after_grant L u c d)]

/-- Witness for C3: granting into the empty ledger inserts one row, and
the at-most-one-row bound holds on a reachable two-grant ledger. -/
theorem C3_witness :
    grant_title_if_not_owned [] "u" "streak_3" 0 = [⟨"u", "streak_3", 0⟩] ∧
    countPairs (grant_title_if_not_owned (grant_title_if_not_owned [] "u" "streak_3" 0)
      "u" "streak_3" 1) "u" "streak_3" ≤ 1 :=
  ⟨C3_grant_unique.2.1 [] "u" "streak_3" 0 (by decide),
    C3_grant_unique.2.2.1 _
      (ReachableLedger.grant _ "u" "streak_3" 1
        (ReachableLedger.grant _ "u" "streak_3" 0 ReachableLedger.nil)) "u" "streak_3"⟩

/-- Ownership after a conditional grant. -/
theorem owns_ite (P : Prop) [Decidable P] (L : List Award) (u c : String) (d : Int)
    (u' c' : String) :
    owns (if P then grant_title_if_not_owned L u c d else L) u' c' =
      (owns L u' c' || (decide P && (u == u' && c == c'))) := by
  by_cases h : P
  · rw [if_pos h, owns_grant]
    simp [h]
  · rw [if_neg h]
    simp [h]

/-- The streak evaluator returns the streak over the 60 most recent
distinct login days. -/
theorem streak_eval_fst (events : List Wakeup) (L : List Award) (user : String) (today : Int) :
    (evaluate_and_grant_streak_titles events L user today).1 =
      calc_streak_days (get_user_login_days events user 60) := rfl

/-- Full ownership characterization of the ledger after the streak
evaluator: old rows plus exactly the tiers whose threshold is met. -/
theorem owns_streak_eval (events : List Wakeup) (L : List Award) (user : String)
    (today : Int) (u c : String) :
    owns (evaluate_and_grant_streak_titles events L user today).2 u c =
      (owns L u c ||
        (decide (3 ≤ calc_streak_days (get_user_login_days events user 60)) &&
          (user == u && "streak_3" == c)) ||
        (decide (7 ≤ calc_streak_days (get_user_login_days events user 60)) &&
          (user == u && "streak_7" == c)) ||
        (decide (14 ≤ calc_streak_days (get_user_login_days events user 60)) &&
          (user == u && "streak_14" == c))) := by
  show owns (if 14 ≤ calc_streak_days (get_user_login_days events user 60) then _ else _) u c = _
  rw [owns_ite, owns_ite, owns_ite]

/-- C4: after the streak evaluation computes streak `s`, exactly the
tiers with threshold ≤ `s` are granted (idempotently, so held tiers
stay held), no other pair changes, and `s` is returned. -/
theorem C4_streak_tiers (events : List Wakeup) (L : List Award) (user : String) (today : Int) :
    (evaluate_and_grant_streak_titles events L user today).1 =
      calc_streak_days (get_user_login_days events user 60) ∧
    owns (evaluate_and_grant_streak_titles events L user today).2 user "streak_3" =
      (owns L user "streak_3" ||
        decide (3 ≤ calc_streak_days (get_user_login_days events user 60))) ∧
    owns (evaluate_and_grant_streak_titles events L user today).2 user "streak_7" =
      (owns L user "streak_7" ||
        decide (7 ≤ calc_streak_days (get_user_login_days events user 60))) ∧
    owns (evaluate_and_grant_streak_titles events L user today).2 user "streak_14" =
      (owns L user "streak_14" ||
        decide (14 ≤ calc_streak_days (get_user_login_days events user 60))) ∧
    (∀ u c : String, u ≠ user ∨ (c ≠ "streak_3" ∧ c ≠ "streak_7" ∧ c ≠ "streak_14") →
      owns (evaluate_and_grant_streak_titles events L user today).2 u c = owns L u c) := by
  refine ⟨rfl, ?_, ?_, ?_, ?_⟩
  · rw [owns_streak_eval]
    have e1 : ("streak_7" == "streak_3") = false := by decide
    have e2 : ("streak_14" == "streak_3") = false := by decide
    simp [e1, e2]
  · rw [owns_streak_eval]
    have e1 : ("streak_3" == "streak_7") = false := by decide
    have e2 : ("streak_14" == "streak_7") = false := by decide
    simp [e1, e2]
  · rw [owns_streak_eval]
    have e1 : ("streak_3" == "streak_14") = false := by decide
    have e2 : ("streak_7" == "streak_14") = false := by decide
    simp [e1, e2]
  · intro u c h
    rw [owns_streak_eval]
    rcases h with h | ⟨h3, h7, h14⟩
    · have hu : (user == u) = false := beq_eq_false_iff_ne.mpr (fun heq => h heq.symm)
      simp [hu]
    · have e3 : ("streak_3" == c) = false := beq_eq_false_iff_ne.mpr (fun heq => h3 heq.symm)
      have e7 : ("streak_7" == c) = false := beq_eq_false_iff_ne.mpr (fun heq => h7 heq.symm)
      have e14 : ("streak_14" == c) = false := beq_eq_false_iff_ne.mpr (fun heq => h14 heq.symm)
      simp [e3, e7, e14]

/-- Witness for C4: the frame condition applied to another user. -/
theorem C4_witness :
    owns (evaluate_and_grant_streak_titles [⟨"u", ⟨7, 0, 0⟩, 0⟩] [] "u" 0).2 "v" "noon_3" =
      owns [] "v" "noon_3" :=
  (C4_streak_tiers [⟨"u", ⟨7, 0, 0⟩, 0⟩] [] "u" 0).2.2.2.2 "v" "noon_3" (Or.inl (by decide))

theorem insertDesc_length (a : Int) (l : List Int) :
    (insertDesc a l).length = l.length + 1 := by
  induction l with
  | nil => rfl
  | cons b rest ih =>
    unfold insertDesc
    by_cases h : a ≥ b
    · rw [if_pos h]
      simp
    · rw [if_neg h]
      simp [ih]

theorem sortDesc_length (l : List Int) : (sortDesc l).length = l.length := by
  induction l with
  | nil => rfl
  | cons a rest ih => simp [sortDesc, insertDesc_length, ih]

/-- A non-empty day list always yields a streak of at least 1. -/
theorem calc_streak_pos {l : List Int} (h : l ≠ []) : 1 ≤ calc_streak_days l := by
  cases l with
  | nil => exact absurd rfl h
  | cons d rest =>
    simp only [calc_streak_days]
    omega

/-- C10: the streak evaluation reads at most the user's 60 most recent
distinct login days, so the computed streak is at least 1 when the user
has any event, at most the number of days considered, and never above
60. -/
theorem C10_streak_bounds (events : List Wakeup) (L : List Award) (user : String)
    (today : Int) :
    ((∃ e ∈ events, e.name = user) →
      1 ≤ calc_streak_days (get_user_login_days events user 60)) ∧
    calc_streak_days (get_user_login_days events user 60) ≤
      (get_user_login_days events user 60).length ∧
    (get_user_login_days events user 60).length ≤ 60 ∧
    (evaluate_and_grant_streak_titles events L user today).1 ≤ 60 := by
  have hlen : (get_user_login_days events user 60).length ≤ 60 := by
    unfold get_user_login_days
    simp [List.length_take]
  refine ⟨?_, calc_streak_le_length _, hlen, ?_⟩
  · rintro ⟨e, he, hname⟩
    have hmem : e ∈ events.filter (fun x => x.name == user) :=
      List.mem_filter.mpr ⟨he, by simp [hname]⟩
    have hmem2 : e.day ∈ (events.filter (fun x => x.name == user)).map (fun x => x.day) :=
      List.mem_map_of_mem _ hmem
    have hmem3 : e.day ∈ ((events.filter (fun x => x.name == user)).map (fun x => x.day)).dedup :=
      List.mem_dedup.mpr hmem2
    have hne : ((events.filter (fun x => x.name == user)).map (fun x => x.day)).dedup ≠ [] :=
      List.ne_nil_of_mem hmem3
    have hpos : 1 ≤ ((events.filter (fun x => x.name == user)).map (fun x => x.day)).dedup.length :=
      List.length_pos.mpr hne
    have hdays : 1 ≤ (get_user_login_days events user 60).length := by
      unfold get_user_login_days userDaysDesc
      rw [List.length_take, sortDesc_length]
      omega
    exact calc_streak_pos (by
      intro hnil
      rw [hnil] at hdays
      simp at hdays)
  · rw [streak_eval_fst]
    exact le_trans (calc_streak_le_length _) hlen

/-- Witness for C10: a user with one event has streak at least 1. -/
theorem C10_witness :
    1 ≤ calc_streak_days (get_user_login_days [⟨"u", ⟨7, 0, 0⟩, 0⟩] "u" 60) :=
  (C10_streak_bounds [⟨"u", ⟨7, 0, 0⟩, 0⟩] [] "u" 0).1 (by decide)

/-- Consecutiveness of the first three days of a list of length ≥ 3. -/
theorem is_consecutive_three (d0 d1 d2 : Int) (rest : List Int) :
    is_consecutive_days (d0 :: d1 :: d2 :: rest) 3 =
      (decide (d0 - d1 = 1) && decide (d1 - d2 = 1)) := by
  unfold is_consecutive_days
  rw [if_neg (by simp)]
  show consecGo d0 (d1 :: d2 :: rest) 2 = _
  by_cases h1 : d0 - d1 = 1
  · by_cases h2 : d1 - d2 = 1
    · simp [consecGo, h1, h2]
    · simp [consecGo, h1, h2]
  · simp [consecGo, h1]

/-- Shape of the wake-up query when the user has at least three
distinct days. -/
theorem gw10_of_daysDesc {events : List Wakeup} {user : String} {d0 d1 d2 : Int}
    {rest : List Int} (hd : userDaysDesc events user = d0 :: d1 :: d2 :: rest) :
    get_user_wakeups events user 10 =
      (d0, earliestTsOn events user d0) :: (d1, earliestTsOn events user d1) ::
      (d2, earliestTsOn events user d2) ::
      (rest.take 7).map (fun d => (d, earliestTsOn events user d)) := by
  unfold get_user_wakeups
  rw [hd]
  rfl

/-- Shape of the spec-side three most recent days in the same case. -/
theorem threeMostRecent_of {events : List Wakeup} {user : String} {d0 d1 d2 : Int}
    {rest : List Int} (hd : userDaysDesc events user = d0 :: d1 :: d2 :: rest) :
    threeMostRecent events user =
      some ((d0, earliestTsOn events user d0), (d1, earliestTsOn events user d1),
        (d2, earliestTsOn events user d2)) := by
  unfold threeMostRecent
  rw [hd]

/-- With fewer than three distinct days there is no three-day window. -/
theorem threeMostRecent_none {events : List Wakeup} {user : String}
    (hd : (userDaysDesc events user).length < 3) :
    threeMostRecent events user = none := by
  unfold threeMostRecent
  rcases h : userDaysDesc events user with _ | ⟨a, _ | ⟨b, _ | ⟨c, r⟩⟩⟩
  · rfl
  · rfl
  · rfl
  · exfalso
    rw [h] at hd
    simp only [List.length_cons] at hd
    omega

/-- The wake-up query returns one row per distinct day, capped at the
limit. -/
theorem gw10_length (events : List Wakeup) (user : String) :
    (get_user_wakeups events user 10).length = min (userDaysDesc events user).length 10 := by
  unfold get_user_wakeups
  rw [List.length_map, List.length_take]
  omega

/-- Characterization of the regularity rule: the flag is exactly the
spec condition, and the ledger gains `regular_3` exactly on success. -/
theorem eval_regular_eq (events : List Wakeup) (L : List Award) (user : String) (today : Int) :
    evaluate_and_grant_regular_3 events L user today =
      (specRegular events user,
        if specRegular events user = true
        then grant_title_if_not_owned L user "regular_3" today else L) := by
  rcases hd : userDaysDesc events user with _ | ⟨d0, _ | ⟨d1, _ | ⟨d2, rest⟩⟩⟩
  · have hs : specRegular events user = false := by
      unfold specRegular
      rw [threeMostRecent_none (by rw [hd]; simp)]
    have hgw : get_user_wakeups events user 10 = [] := by
      unfold get_user_wakeups
      rw [hd]
      rfl
    unfold evaluate_and_grant_regular_3
    rw [hgw, hs]
    simp
  · have hs : specRegular events user = false := by
      unfold specRegular
      rw [threeMostRecent_none (by rw [hd]; simp)]
    have hgw : get_user_wakeups events user 10 = [(d0, earliestTsOn events user d0)] := by
      unfold get_user_wakeups
      rw [hd]
      rfl
    unfold evaluate_and_grant_regular_3
    rw [hgw, hs]
    simp
  · have hs : specRegular events user = false := by
      unfold specRegular
      rw [threeMostRecent_none (by rw [hd]; simp)]
    have hgw : get_user_wakeups events user 10 =
        [(d0, earliestTsOn events user d0), (d1, earliestTsOn events user d1)] := by
      unfold get_user_wakeups
      rw [hd]
      rfl
    unfold evaluate_and_grant_regular_3
    rw [hgw, hs]
    simp
  · have hgw := gw10_of_daysDesc hd
    have ht := threeMostRecent_of hd
    unfold evaluate_and_grant_regular_3 specRegular
    rw [hgw, ht]
    simp only [List.length_cons, List.map_cons]
    rw [if_neg (by omega)]
    rw [is_consecutive_three]
    by_cases h1 : d0 - d1 = 1
    · by_cases h2 : d1 - d2 = 1
      · by_cases h3 : (wakeMinutes (earliestTsOn events user d0) -
            wakeMinutes (earliestTsOn events user d1)).natAbs ≤ 30
        · by_cases h4 : (wakeMinutes (earliestTsOn events user d1) -
              wakeMinutes (earliestTsOn events user d2)).natAbs ≤ 30
          · simp [h1, h2, h3, h4]
          · simp [h1, h2, h3, h4]
        · simp [h1, h2, h3]
      · simp [h1, h2]
    · simp [h1]

/-- The spec-side noon test is the code's `is_noon`. -/
theorem decide_noon_eq (t : Time) : decide (12 ≤ t.hour) = is_noon t := rfl

/-- The spec-side 04:00:00 cutoff is the code's `is_too_early`. -/
theorem specAtOrBefore4_eq (t : Time) : specAtOrBefore4 t = is_too_early t := rfl

/-- Characterization of the night-owl rule: the flag is exactly the
spec condition, and the ledger gains `noon_3` exactly on success. -/
theorem eval_noon_eq (events : List Wakeup) (L : List Award) (user : String) (today : Int) :
    evaluate_and_grant_noon_3 events L user today =
      (specNoon events user,
        if specNoon events user = true
        then grant_title_if_not_owned L user "noon_3" today else L) := by
  rcases hd : userDaysDesc events user with _ | ⟨d0, _ | ⟨d1, _ | ⟨d2, rest⟩⟩⟩
  · have hs : specNoon events user = false := by
      unfold specNoon
      rw [threeMostRecent_none (by rw [hd]; simp)]
    have hgw : get_user_wakeups events user 10 = [] := by
      unfold get_user_wakeups
      rw [hd]
      rfl
    unfold evaluate_and_grant_noon_3
    rw [hgw, hs]
    simp
  · have hs : specNoon events user = false := by
      unfold specNoon
      rw [threeMostRecent_none (by rw [hd]; simp)]
    have hgw : get_user_wakeups events user 10 = [(d0, earliestTsOn events user d0)] := by
      unfold get_user_wakeups
      rw [hd]
      rfl
    unfold evaluate_and_grant_noon_3
    rw [hgw, hs]
    simp
  · have hs : specNoon events user = false := by
      unfold specNoon
      rw [threeMostRecent_none (by rw [hd]; simp)]
    have hgw : get_user_wakeups events user 10 =
        [(d0, earliestTsOn events user d0), (d1, earliestTsOn events user d1)] := by
      unfold get_user_wakeups
      rw [hd]
      rfl
    unfold evaluate_and_grant_noon_3
    rw [hgw, hs]
    simp
  · have hgw := gw10_of_daysDesc hd
    have ht := threeMostRecent_of hd
    unfold evaluate_and_grant_noon_3 specNoon
    rw [hgw, ht]
    simp only [List.length_cons, List.map_cons]
    rw [if_neg (by omega)]
    simp only [is_consecutive_three]
    by_cases h1 : d0 - d1 = 1
    · by_cases h2 : d1 - d2 = 1
      · by_cases h3 : 12 ≤ (earliestTsOn events user d0).hour
        · by_cases h4 : 12 ≤ (earliestTsOn events user d1).hour
          · by_cases h5 : 12 ≤ (earliestTsOn events user d2).hour
            · simp [is_noon, h1, h2, h3, h4, h5]
            · simp [is_noon, h1, h2, h3, h4, h5]
          · simp [is_noon, h1, h2, h3, h4]
        · simp [is_noon, h1, h2, h3]
      · simp [h1, h2]
    · simp [h1]

/-- Characterization of the insomniac rule: the flag is exactly the
spec condition, and the ledger gains `no_sleep_3` exactly on success. -/
theorem eval_nosleep_eq (events : List Wakeup) (L : List Award) (user : String) (today : Int) :
    evaluate_and_grant_no_sleep_3 events L user today =
      (specNoSleep events user,
        if specNoSleep events user = true
        then grant_title_if_not_owned L user "no_sleep_3" today else L) := by
  rcases hd : userDaysDesc events user with _ | ⟨d0, _ | ⟨d1, _ | ⟨d2, rest⟩⟩⟩
  · have hs : specNoSleep events user = false := by
      unfold specNoSleep
      rw [threeMostRecent_none (by rw [hd]; simp)]
    have hgw : get_user_wakeups events user 10 = [] := by
      unfold get_user_wakeups
      rw [hd]
      rfl
    unfold evaluate_and_grant_no_sleep_3
    rw [hgw, hs]
    simp
  · have hs : specNoSleep events user = false := by
      unfold specNoSleep
      rw [threeMostRecent_none (by rw [hd]; simp)]
    have hgw : get_user_wakeups events user 10 = [(d0, earliestTsOn events user d0)] := by
      unfold get_user_wakeups
      rw [hd]
      rfl
    unfold evaluate_and_grant_no_sleep_3
    rw [hgw, hs]
    simp
  · have hs : specNoSleep events user = false := by
      unfold specNoSleep
      rw [threeMostRecent_none (by rw [hd]; simp)]
    have hgw : get_user_wakeups events user 10 =
        [(d0, earliestTsOn events user d0), (d1, earliestTsOn events user d1)] := by
      unfold get_user_wakeups
      rw [hd]
      rfl
    unfold evaluate_and_grant_no_sleep_3
    rw [hgw, hs]
    simp
  · have hgw := gw10_of_daysDesc hd
    have ht := threeMostRecent_of hd
    unfold evaluate_and_grant_no_sleep_3 specNoSleep
    rw [hgw, ht]
    simp only [List.length_cons, List.map_cons]
    rw [if_neg (by omega)]
    simp only [is_consecutive_three]
    by_cases h1 : d0 - d1 = 1
    · by_cases h2 : d1 - d2 = 1
      · by_cases h3 : is_too_early (earliestTsOn events user d0) = true
        · by_cases h4 : is_too_early (earliestTsOn events user d1) = true
          · by_cases h5 : is_too_early (earliestTsOn events user d2) = true
            · simp [specAtOrBefore4_eq, h1, h2, h3, h4, h5]
            · rw [Bool.not_eq_true] at h5
              simp [specAtOrBefore4_eq, h1, h2, h3, h4, h5]
          · rw [Bool.not_eq_true] at h4
            simp [specAtOrBefore4_eq, h1, h2, h3, h4]
        · rw [Bool.not_eq_true] at h3
          simp [specAtOrBefore4_eq, h1, h2, h3]
      · simp [h1, h2]
    · simp [h1]

/-- Characterization of the early-riser rule: it returns the common
truthy winner of the last three days, granting `earlyking_3` to that
person and otherwise leaving the ledger unchanged. -/
theorem eval_earlyking_eq (events : List Wakeup) (L : List Award) (today : Int) :
    evaluate_and_grant_earlyking_3 events L today =
      (earlykingWinner events today,
        match earlykingWinner events today with
        | some u => grant_title_if_not_owned L u "earlyking_3" today
        | none => L) := by
  simp only [evaluate_and_grant_earlyking_3, earlykingWinner]
  split
  · cases hw : daily_fastest_riser events today with
    | none => rfl
    | some u => rfl
  · rfl

/-- The flags of the combined evaluator are exactly the rule
conditions; they do not depend on the incoming ledger. -/
theorem all_titles_fst (events : List Wakeup) (L : List Award) (user : String) (today : Int) :
    (evaluate_and_grant_all_titles events L user today).1 =
      ⟨calc_streak_days (get_user_login_days events user 60),
        specRegular events user, specNoon events user, specNoSleep events user,
        earlykingWinner events today⟩ := by
  simp only [evaluate_and_grant_all_titles, eval_regular_eq, eval_noon_eq, eval_nosleep_eq,
    eval_earlyking_eq, streak_eval_fst]

/-- The (time, name) comparison is the lexicographic order on the pair
of the time key and the name. -/
theorem pairLtB_iff_lt (a b : Time × String) :
    pairLtB a b = true ↔ toLex (a.1.key, a.2) < toLex (b.1.key, b.2) := by
  rw [Prod.Lex.lt_iff]
  simp [pairLtB]

theorem pairLtB_eq_false_iff (a b : Time × String) :
    pairLtB a b = false ↔ toLex (b.1.key, b.2) ≤ toLex (a.1.key, a.2) := by
  rw [← not_lt, ← pairLtB_iff_lt]
  simp

/-- The fold in `daily_fastest_riser` returns one of the pairs. -/
theorem foldlMin_mem (p : Time × String) (rest : List (Time × String)) :
    rest.foldl (fun a b => if pairLtB b a then b else a) p ∈ p :: rest := by
  induction rest generalizing p with
  | nil => simp
  | cons q rs ih =>
    rw [List.foldl_cons]
    by_cases h : pairLtB q p = true
    · rw [if_pos h]
      have := ih q
      simp only [List.mem_cons] at this ⊢
      tauto
    · rw [if_neg h]
      have := ih p
      simp only [List.mem_cons] at this ⊢
      tauto

/-- The fold result is a minimum: no listed pair is strictly below it. -/
theorem foldlMin_not_lt (p : Time × String) (rest : List (Time × String)) :
    ∀ x ∈ p :: rest,
      pairLtB x (rest.foldl (fun a b => if pairLtB b a then b else a) p) = false := by
  induction rest generalizing p with
  | nil =>
    intro x hx
    simp only [List.mem_singleton] at hx
    subst hx
    rw [List.foldl_nil, pairLtB_eq_false_iff]
  | cons q rs ih =>
    intro x hx
    rw [List.foldl_cons]
    by_cases h : pairLtB q p = true
    · rw [if_pos h]
      rcases List.mem_cons.mp hx with rfl | hx2
      · have hr : pairLtB q (rs.foldl (fun a b => if pairLtB b a then b else a) q) = false :=
          ih q q (by simp)
        rw [pairLtB_eq_false_iff] at hr ⊢
        exact le_trans hr (le_of_lt ((pairLtB_iff_lt q x).mp h))
      · exact ih q x hx2
    · rw [if_neg h]
      have hfalse : pairLtB q p = false := by
        rw [← Bool.not_eq_true]
        exact h
      rcases List.mem_cons.mp hx with rfl | hx2
      · exact ih x x (by simp)
      · rcases List.mem_cons.mp hx2 with rfl | hx3
        · have hr : pairLtB p (rs.foldl (fun a b => if pairLtB b a then b else a) p) = false :=
            ih p p (by simp)
          rw [pairLtB_eq_false_iff] at hr hfalse ⊢
          exact le_trans hr hfalse
        · exact ih p x (by simp [hx3])

/-- Refinement of `daily_fastest_riser` against the spec: it returns
`some u` exactly when `u` has an event on the day and, for every other
user with an event that day, `u`'s (earliest time, name) pair is
lexicographically smaller — earliest event wins, ties go to the
smallest name. -/
theorem daily_fastest_riser_spec (events : List Wakeup) (d : Int) (u : String) :
    daily_fastest_riser events d = some u ↔
      (u ∈ namesOn events d ∧ ∀ v ∈ namesOn events d, v ≠ u →
        pairLtB (bestTsOn events d u, u) (bestTsOn events d v, v) = true) := by
  unfold daily_fastest_riser
  rcases hn : (namesOn events d).map (fun n => (bestTsOn events d n, n)) with _ | ⟨p, rest⟩
  · have hnil : namesOn events d = [] := by
      have := congrArg List.length hn
      simp only [List.length_map, List.length_nil] at this
      exact List.length_eq_zero.mp this
    simp [hnil]
  · constructor
    · intro hsome
      have hu : (rest.foldl (fun a b => if pairLtB b a then b else a) p).2 = u :=
        Option.some.inj hsome
      have hmem : rest.foldl (fun a b => if pairLtB b a then b else a) p ∈
          (namesOn events d).map (fun n => (bestTsOn events d n, n)) := by
        rw [hn]
        exact foldlMin_mem p rest
      obtain ⟨n, hn2, hfn⟩ := List.mem_map.mp hmem
      have hnu : n = u := by
        have := congrArg Prod.snd hfn
        simpa [hu] using this
      subst hnu
      refine ⟨hn2, ?_⟩
      intro v hv hvne
      have hvmem : (bestTsOn events d v, v) ∈ p :: rest := by
        rw [← hn]
        exact List.mem_map_of_mem _ hv
      have hnot := foldlMin_not_lt p rest _ hvmem
      rw [← hfn] at hnot
      rw [pairLtB_eq_false_iff] at hnot
      rw [pairLtB_iff_lt]
      refine lt_of_le_of_ne hnot ?_
      intro heq
      have := congrArg (fun x => (ofLex x).2) heq
      exact hvne (by simpa using this.symm)
    · rintro ⟨hu, hmin⟩
      have hmem : rest.foldl (fun a b => if pairLtB b a then b else a) p ∈
          (namesOn events d).map (fun n => (bestTsOn events d n, n)) := by
        rw [hn]
        exact foldlMin_mem p rest
      obtain ⟨n, hn2, hfn⟩ := List.mem_map.mp hmem
      by_cases hnu : n = u
      · subst hnu
        show some ((rest.foldl (fun a b => if pairLtB b a then b else a) p).2) = some n
        rw [← hfn]
      · exfalso
        have hlt := hmin n hn2 hnu
        have hpu_mem : (bestTsOn events d u, u) ∈ p :: rest := by
          rw [← hn]
          exact List.mem_map_of_mem _ hu
        have hfalse := foldlMin_not_lt p rest _ hpu_mem
        rw [← hfn] at hfalse
        rw [hlt] at hfalse
        simp at hfalse

/-- C5: the regularity rule grants `regular_3` exactly when the three
most recent distinct wake-up days are calendar-consecutive and the
earliest wake times of successive days, as minute of day with seconds
discarded, differ by at most 30; wake times 07:00 / 07:20 / 07:45 over
consecutive days grant, while 07:00 / 07:40 / 08:25 do not. -/
theorem C5_regular (events : List Wakeup) (L : List Award) (user : String) (today : Int) :
    ((evaluate_and_grant_regular_3 events L user today).1 = specRegular events user ∧
      (specRegular events user = true →
        (evaluate_and_grant_regular_3 events L user today).2 =
          grant_title_if_not_owned L user "regular_3" today) ∧
      (specRegular events user = false →
        (evaluate_and_grant_regular_3 events L user today).2 = L)) ∧
    (evaluate_and_grant_regular_3
      [⟨"u", ⟨7, 0, 0⟩, 0⟩, ⟨"u", ⟨7, 20, 0⟩, 1⟩, ⟨"u", ⟨7, 45, 0⟩, 2⟩] [] "u" 2).1 = true ∧
    (evaluate_and_grant_regular_3
      [⟨"u", ⟨7, 0, 0⟩, 0⟩, ⟨"u", ⟨7, 40, 0⟩, 1⟩, ⟨"u", ⟨8, 25, 0⟩, 2⟩] [] "u" 2).1 = false := by
  refine ⟨⟨?_, ?_, ?_⟩, ?_, ?_⟩
  · rw [eval_regular_eq]
  · intro h
    rw [eval_regular_eq]
    simp [h]
  · intro h
    rw [eval_regular_eq]
    simp [h]
  · decide
  · decide

/-- Witness for C5: the consecutive 07:00 / 07:20 / 07:45 history
satisfies the spec condition and the rule writes the grant. -/
theorem C5_witness :
    (evaluate_and_grant_regular_3
      [⟨"u", ⟨7, 0, 0⟩, 0⟩, ⟨"u", ⟨7, 20, 0⟩, 1⟩, ⟨"u", ⟨7, 45, 0⟩, 2⟩] [] "u" 2).2 =
      grant_title_if_not_owned [] "u" "regular_3" 2 :=
  (C5_regular [⟨"u", ⟨7, 0, 0⟩, 0⟩, ⟨"u", ⟨7, 20, 0⟩, 1⟩, ⟨"u", ⟨7, 45, 0⟩, 2⟩]
    [] "u" 2).1.2.1 (by decide)

/-- C7: the insomniac rule grants `no_sleep_3` exactly when the three
most recent distinct wake-up days are calendar-consecutive and every
earliest wake time is at or before 04:00:00 (hour below 4, or exactly
04:00:00); times 03:00 / 03:30 / 04:00:00 over consecutive days grant,
while a time of 04:00:01 fails the rule. -/
theorem C7_no_sleep (events : List Wakeup) (L : List Award) (user : String) (today : Int) :
    ((evaluate_and_grant_no_sleep_3 events L user today).1 = specNoSleep events user ∧
      (specNoSleep events user = true →
        (evaluate_and_grant_no_sleep_3 events L user today).2 =
          grant_title_if_not_owned L user "no_sleep_3" today) ∧
      (specNoSleep events user = false →
        (evaluate_and_grant_no_sleep_3 events L user today).2 = L)) ∧
    (∀ t : Time, specAtOrBefore4 t =
      (decide (t.hour < 4) || (decide (t.hour = 4) && decide (t.minute = 0) &&
        decide (t.second = 0)))) ∧
    (evaluate_and_grant_no_sleep_3
      [⟨"u", ⟨3, 0, 0⟩, 0⟩, ⟨"u", ⟨3, 30, 0⟩, 1⟩, ⟨"u", ⟨4, 0, 0⟩, 2⟩] [] "u" 2).1 = true ∧
    (evaluate_and_grant_no_sleep_3
      [⟨"u", ⟨3, 0, 0⟩, 0⟩, ⟨"u", ⟨3, 30, 0⟩, 1⟩, ⟨"u", ⟨4, 0, 1⟩, 2⟩] [] "u" 2).1 = false := by
  refine ⟨⟨?_, ?_, ?_⟩, ?_, ?_, ?_⟩
  · rw [eval_nosleep_eq]
  · intro h
    rw [eval_nosleep_eq]
    simp [h]
  · intro h
    rw [eval_nosleep_eq]
    simp [h]
  · intro t
    by_cases h1 : t.hour = 4 <;> by_cases h2 : t.minute = 0 <;> by_cases h3 : t.second = 0 <;>
      simp [specAtOrBefore4, h1, h2, h3]
  · decide
  · decide

/-- Witness for C7: the 03:00 / 03:30 / 04:00:00 history satisfies the
spec condition and the rule writes the grant. -/
theorem C7_witness :
    (evaluate_and_grant_no_sleep_3
      [⟨"u", ⟨3, 0, 0⟩, 0⟩, ⟨"u", ⟨3, 30, 0⟩, 1⟩, ⟨"u", ⟨4, 0, 0⟩, 2⟩] [] "u" 2).2 =
      grant_title_if_not_owned [] "u" "no_sleep_3" 2 :=
  (C7_no_sleep [⟨"u", ⟨3, 0, 0⟩, 0⟩, ⟨"u", ⟨3, 30, 0⟩, 1⟩, ⟨"u", ⟨4, 0, 0⟩, 2⟩]
    [] "u" 2).1.2.1 (by decide)

/-- C9: with insufficient history every rule returns a no-grant result
rather than failing: fewer than three distinct wake-up days makes the
regularity, night-owl and insomniac rules return false with the ledger
unchanged, and a missing fastest riser on any of the three days makes
the early-riser rule return none with the ledger unchanged. -/
theorem C9_insufficient_history (events : List Wakeup) (L : List Award) (user : String)
    (today : Int) :
    (distinctDayCount events user < 3 →
      evaluate_and_grant_regular_3 events L user today = (false, L) ∧
      evaluate_and_grant_noon_3 events L user today = (false, L) ∧
      evaluate_and_grant_no_sleep_3 events L user today = (false, L)) ∧
    ((daily_fastest_riser events today = none ∨
      daily_fastest_riser events (today - 1) = none ∨
      daily_fastest_riser events (today - 2) = none) →
      evaluate_and_grant_earlyking_3 events L today = (none, L)) := by
  constructor
  · intro h
    have h' : (userDaysDesc events user).length < 3 := h
    have ht : threeMostRecent events user = none := threeMostRecent_none h'
    have hsr : specRegular events user = false := by
      unfold specRegular
      rw [ht]
    have hsn : specNoon events user = false := by
      unfold specNoon
      rw [ht]
    have hss : specNoSleep events user = false := by
      unfold specNoSleep
      rw [ht]
    refine ⟨?_, ?_, ?_⟩
    · rw [eval_regular_eq, hsr]
      simp
    · rw [eval_noon_eq, hsn]
      simp
    · rw [eval_nosleep_eq, hss]
      simp
  · intro h
    have hw : earlykingWinner events today = none := by
      simp only [earlykingWinner]
      rcases h with h | h | h <;> rw [h] <;> simp [truthyName]
    rw [eval_earlyking_eq, hw]

/-- Witness for C9: a user with no events at all gets no grant and no
state change from any rule. -/
theorem C9_witness :
    evaluate_and_grant_regular_3 [] [] "u" 0 = (false, []) ∧
    evaluate_and_grant_earlyking_3 [] [] 0 = (none, []) :=
  ⟨((C9_insufficient_history [] [] "u" 0).1 (by decide)).1,
    (C9_insufficient_history [] [] "u" 0).2 (Or.inl (by decide))⟩

/-- C2 as stated is false: a user who already holds `regular_3` and
still satisfies the regularity condition is reported with
`regular_ok = true` even though the title was previously held and
nothing was newly granted for it (the ledger keeps its single row). -/
theorem C2_counterexample :
    owns [⟨"u", "regular_3", 1⟩] "u" "regular_3" = true ∧
    (evaluate_and_grant_all_titles
      [⟨"u", ⟨7, 0, 0⟩, 0⟩, ⟨"u", ⟨7, 0, 0⟩, 1⟩, ⟨"u", ⟨7, 0, 0⟩, 2⟩]
      [⟨"u", "regular_3", 1⟩] "u" 2).1.regular_ok = true ∧
    countPairs (evaluate_and_grant_all_titles
      [⟨"u", ⟨7, 0, 0⟩, 0⟩, ⟨"u", ⟨7, 0, 0⟩, 1⟩, ⟨"u", ⟨7, 0, 0⟩, 2⟩]
      [⟨"u", "regular_3", 1⟩] "u" 2).2 "u" "regular_3" = 1 := by
  refine ⟨by decide, by decide, by decide⟩

/-- C2 amended: the structured result reports the computed streak and,
for each rule, whether its condition holds in this evaluation; it is
independent of which titles were already held (grants themselves are
idempotent), so the flags signal condition satisfaction rather than
novelty. -/
theorem C2_result_flags (events : List Wakeup) (L Lp : List Award) (user : String)
    (today : Int) :
    (evaluate_and_grant_all_titles events L user today).1 =
      ⟨calc_streak_days (get_user_login_days events user 60),
        specRegular events user, specNoon events user, specNoSleep events user,
        earlykingWinner events today⟩ ∧
    (evaluate_and_grant_all_titles events L user today).1 =
      (evaluate_and_grant_all_titles events Lp user today).1 :=
  ⟨all_titles_fst events L user today,
    (all_titles_fst events L user today).trans (all_titles_fst events Lp user today).symm⟩

/-- The early-riser winner is the common fastest riser of the three
days when it exists, passes truthiness, and is the same person. -/
theorem earlykingWinner_eq_some (events : List Wakeup) (today : Int) (u : String) :
    earlykingWinner events today = some u ↔
      (daily_fastest_riser events today = some u ∧
       daily_fastest_riser events (today - 1) = some u ∧
       daily_fastest_riser events (today - 2) = some u ∧ u ≠ "") := by
  simp only [earlykingWinner]
  constructor
  · intro h
    split at h
    · rename_i hc
      simp only [Bool.and_eq_true, beq_iff_eq] at hc
      obtain ⟨⟨⟨⟨h0, h1⟩, h2⟩, h01⟩, h12⟩ := hc
      refine ⟨h, ?_, ?_, ?_⟩
      · rw [← h01]
        exact h
      · rw [← h12, ← h01]
        exact h
      · intro hu
        rw [h, hu] at h0
        simp [truthyName] at h0
    · exact absurd h (by simp)
  · rintro ⟨h0, h1, h2, hu⟩
    rw [h0, h1, h2]
    have hb : (u == "") = false := beq_eq_false_iff_ne.mpr hu
    simp [truthyName, hb]

/-- C6 as stated is false: when the common fastest riser of all three
days is the empty-string user, every day has a determined fastest riser
and it is the same person, yet the rule grants nothing — the Python
`all(winners)` treats the empty name as falsy. -/
theorem C6_counterexample :
    daily_fastest_riser [⟨"", ⟨5, 0, 0⟩, 0⟩, ⟨"", ⟨5, 0, 0⟩, -1⟩, ⟨"", ⟨5, 0, 0⟩, -2⟩] 0 =
      some "" ∧
    daily_fastest_riser [⟨"", ⟨5, 0, 0⟩, 0⟩, ⟨"", ⟨5, 0, 0⟩, -1⟩, ⟨"", ⟨5, 0, 0⟩, -2⟩] (-1) =
      some "" ∧
    daily_fastest_riser [⟨"", ⟨5, 0, 0⟩, 0⟩, ⟨"", ⟨5, 0, 0⟩, -1⟩, ⟨"", ⟨5, 0, 0⟩, -2⟩] (-2) =
      some "" ∧
    evaluate_and_grant_earlyking_3
      [⟨"", ⟨5, 0, 0⟩, 0⟩, ⟨"", ⟨5, 0, 0⟩, -1⟩, ⟨"", ⟨5, 0, 0⟩, -2⟩] [] 0 = (none, []) :=
  ⟨by decide, by decide, by decide, by decide⟩

/-- C6 amended: each day's fastest riser is the user whose (earliest
event time, name) pair is lexicographically least — earliest event
wins, ties to the smallest name — and the rule grants `earlyking_3` to
that person exactly when today and the two preceding days all have the
same determined fastest riser with a non-empty name (the code's
truthiness test also rejects an empty-name winner), regardless of which
user triggered the evaluation; otherwise it grants nothing and leaves
the ledger unchanged. -/
theorem C6_earlyking (events : List Wakeup) (L : List Award) (today : Int) :
    (∀ u : String,
      (evaluate_and_grant_earlyking_3 events L today).1 = some u ↔
        (daily_fastest_riser events today = some u ∧
         daily_fastest_riser events (today - 1) = some u ∧
         daily_fastest_riser events (today - 2) = some u ∧ u ≠ "")) ∧
    (∀ u : String, (evaluate_and_grant_earlyking_3 events L today).1 = some u →
      (evaluate_and_grant_earlyking_3 events L today).2 =
        grant_title_if_not_owned L u "earlyking_3" today) ∧
    ((evaluate_and_grant_earlyking_3 events L today).1 = none →
      (evaluate_and_grant_earlyking_3 events L today).2 = L) ∧
    (∀ (d : Int) (u : String),
      daily_fastest_riser events d = some u ↔
        (u ∈ namesOn events d ∧ ∀ v ∈ namesOn events d, v ≠ u →
          pairLtB (bestTsOn events d u, u) (bestTsOn events d v, v) = true)) := by
  refine ⟨?_, ?_, ?_, fun d u => daily_fastest_riser_spec events d u⟩
  · intro u
    rw [eval_earlyking_eq]
    exact earlykingWinner_eq_some events today u
  · intro u h
    rw [eval_earlyking_eq] at h ⊢
    simp only at h
    rw [h]
  · intro h
    rw [eval_earlyking_eq] at h ⊢
    simp only at h
    rw [h]

/-- Witness for C6: a user who is the sole fastest riser on all three
days receives the grant. -/
theorem C6_witness :
    (evaluate_and_grant_earlyking_3
      [⟨"a", ⟨6, 0, 0⟩, 0⟩, ⟨"a", ⟨6, 0, 0⟩, -1⟩, ⟨"a", ⟨6, 0, 0⟩, -2⟩, ⟨"b", ⟨7, 0, 0⟩, 0⟩]
      [] 0).2 = grant_title_if_not_owned [] "a" "earlyking_3" 0 :=
  (C6_earlyking
    [⟨"a", ⟨6, 0, 0⟩, 0⟩, ⟨"a", ⟨6, 0, 0⟩, -1⟩, ⟨"a", ⟨6, 0, 0⟩, -2⟩, ⟨"b", ⟨7, 0, 0⟩, 0⟩]
    [] 0).2.1 "a" (by decide)

/-- A title entry has a non-empty holder list exactly when some award
for its code carries a non-empty user name. -/
theorem holders_iff (awards : List Award) (c : String) :
    (((awards.filter (fun a => a.title_code == c)).map (fun a => a.user_name)).filter
        (fun n => !(n == ""))) ≠ [] ↔
      ∃ a ∈ awards, a.title_code = c ∧ a.user_name ≠ "" := by
  constructor
  · intro h
    obtain ⟨x, hx⟩ := List.exists_mem_of_ne_nil _ h
    rw [List.mem_filter] at hx
    obtain ⟨hx1, hx2⟩ := hx
    obtain ⟨a, ha, rfl⟩ := List.mem_map.mp hx1
    rw [List.mem_filter] at ha
    refine ⟨a, ha.1, by simpa using ha.2, by simpa using hx2⟩
  · rintro ⟨a, ha, hc, hn⟩
    apply List.ne_nil_of_mem (a := a.user_name)
    rw [List.mem_filter]
    refine ⟨List.mem_map_of_mem _ ?_, by simpa using hn⟩
    rw [List.mem_filter]
    exact ⟨ha, by simpa using hc⟩

/-- C8 as stated is false: a hidden title whose only award carries the
empty-string user name is dropped from the visible catalog even though
an award for it exists, because the holder grouping skips falsy names. -/
theorem C8_counterexample :
    fetch_titles_with_holders [⟨1, "h", "n", "d", true⟩] [⟨"", "h", 0⟩] = [] ∧
    (∃ a ∈ [(⟨"", "h", 0⟩ : Award)], a.title_code = "h") :=
  ⟨by decide, by decide⟩

/-- C8 amended: with the schema's UNIQUE title codes, the visible
catalog always contains every non-hidden title, and contains a hidden
title exactly when at least one award for it with a non-empty user
name exists (the `if user_name:` truthiness filter skips empty names). -/
theorem C8_visible_catalog (titles : List TitleDef) (awards : List Award)
    (hnodup : (titles.map (fun t => t.code)).Nodup) :
    ∀ t ∈ titles,
      (t.is_hidden = false →
        ∃ e ∈ fetch_titles_with_holders titles awards, e.code = t.code) ∧
      (t.is_hidden = true →
        ((∃ e ∈ fetch_titles_with_holders titles awards, e.code = t.code) ↔
          ∃ a ∈ awards, a.title_code = t.code ∧ a.user_name ≠ "")) := by
  intro t ht
  constructor
  · intro hhid
    refine ⟨titleEntryFor awards t, ?_, rfl⟩
    unfold fetch_titles_with_holders
    rw [List.mem_filter]
    refine ⟨List.mem_map_of_mem _ ht, ?_⟩
    simp [titleEntryFor, hhid]
  · intro hhid
    constructor
    · rintro ⟨e, he, hcode⟩
      unfold fetch_titles_with_holders at he
      rw [List.mem_filter] at he
      obtain ⟨hmem, hpred⟩ := he
      obtain ⟨t2, ht2, hft⟩ := List.mem_map.mp hmem
      have ht2t : t2 = t := by
        apply List.inj_on_of_nodup_map hnodup ht2 ht
        have hec : e.code = t2.code := by
          rw [← hft]
          rfl
        rw [← hec, hcode]
      subst ht2t
      rw [← hft] at hpred
      simp only [titleEntryFor, Bool.not_eq_true', Bool.and_eq_false_iff] at hpred
      rw [← holders_iff awards t2.code]
      rcases hpred with hpred | hpred
      · rw [hhid] at hpred
        simp at hpred
      · intro hnil
        rw [hnil] at hpred
        simp at hpred
    · intro hex
      refine ⟨titleEntryFor awards t, ?_, rfl⟩
      unfold fetch_titles_with_holders
      rw [List.mem_filter]
      refine ⟨List.mem_map_of_mem _ ht, ?_⟩
      have hne := (holders_iff awards t.code).mpr hex
      simp only [titleEntryFor, Bool.not_eq_true', Bool.and_eq_false_iff]
      right
      simp only [beq_eq_false_iff_ne, Ne, List.length_eq_zero]
      exact hne

/-- Witness for C8: a hidden title with one real holder is listed. -/
theorem C8_witness :
    ∃ e ∈ fetch_titles_with_holders [⟨1, "h", "n", "d", true⟩] [⟨"x", "h", 0⟩], e.code = "h" :=
  (((C8_visible_catalog [⟨1, "h", "n", "d", true⟩] [⟨"x", "h", 0⟩] (by decide))
    ⟨1, "h", "n", "d", true⟩ (by decide)).2 rfl).mpr (by decide)
